import Mathlib

/-!
Shallow embedding of the training/evaluation loop `train` from
`src/ConvNetsPyTorch.ipynb` (code cell defining `def train(model, train_loader,
test_loader, epochs=5)`).

The loop itself is embedded faithfully; the external ML framework's calls
(forward pass `model(data)`, loss `criterion(output, target)`, the combined
effect of `loss.backward(); optimizer.step()`, the correct-prediction count
`(predicted == target).sum().item()` and the batch size `target.size(0)`)
are opaque parameters collected in a `Framework` structure.  A framework call
may return a defined value, return `None` (the per-batch anomaly the loop
handles explicitly), or raise an exception (modelled as `Except.error`).
Scalar values (`loss.item()` and the derived metrics) are modelled as `ℚ`.
Python's true division raises `ZeroDivisionError` on a zero denominator,
modelled by `pythonDiv`.  Every line the function prints is recorded in
order as a `Line` value.
-/

namespace ConvNets

/-- The opaque external-framework operations used by `train`.
`forward m b` is `model(data)` (it may return `None`, which the loop handles,
or raise); `criterion o b` is `criterion(output, target)` with the scalar
value `loss.item()` (again possibly `None` or raising); `step m b` is the
effect of `loss.backward(); optimizer.step()` on the mutable training state
(parameters plus optimizer internals); `correct o b` is
`(predicted == target).sum().item()`; `size b` is `target.size(0)`. -/
structure Framework (M D O : Type) where
  forward : M → D → Except String (Option O)
  criterion : O → D → Except String (Option ℚ)
  step : M → D → Except String M
  correct : O → D → ℕ
  size : D → ℕ

/-- A data loader: the finite sequence of batches it yields on one pass, and
`len(loader.dataset)`, the size of the underlying dataset. -/
structure Loader (D : Type) where
  batches : List D
  datasetSize : ℕ

/-- One printed line of `train`: the four per-batch warnings, the per-epoch
progress line (with the epoch number `epoch+1`, the total `epochs`, and the
four formatted metrics), and the error line of the `except` handler. -/
inductive Line where
  | warnOutputNone : Line
  | warnLossNone : Line
  | warnOutputNoneEval : Line
  | warnLossNoneEval : Line
  | progress : ℤ → ℤ → ℚ → ℚ → ℚ → ℚ → Line
  | errorLine : String → Line
  deriving DecidableEq, Repr

/-- Holds exactly on the error line printed by the `except` handler. -/
def Line.isError : Line → Bool
  | .errorLine _ => true
  | _ => false

/-- Holds exactly on the per-epoch progress line. -/
def Line.isProgress : Line → Bool
  | .progress _ _ _ _ _ _ => true
  | _ => false

/-- Holds exactly on the four per-batch warning lines. -/
def Line.isWarning : Line → Bool
  | .warnOutputNone => true
  | .warnLossNone => true
  | .warnOutputNoneEval => true
  | .warnLossNoneEval => true
  | _ => false

/-- The running state of one phase of one epoch: the model (training state)
variable, the running loss sum, the correct-prediction count and the example
count (`train_loss, train_correct, train_total` resp. the `test_` triple). -/
structure Totals (M : Type) where
  model : M
  lossSum : ℚ
  correct : ℕ
  total : ℕ
  deriving Repr

/-- The `history` dictionary: six metric sequences, exactly the six keys the
source initialises (`train_loss`, `train_acc`, `test_loss`, `test_acc`,
`val_acc`, `val_loss`). -/
structure History where
  train_loss : List ℚ
  train_acc : List ℚ
  test_loss : List ℚ
  test_acc : List ℚ
  val_acc : List ℚ
  val_loss : List ℚ
  deriving DecidableEq, Repr

/-- The freshly initialised `history` dictionary: six empty sequences. -/
def History.empty : History := ⟨[], [], [], [], [], []⟩

/-- Python float true division: raises `ZeroDivisionError` on a zero
denominator, otherwise exact division. -/
def pythonDiv (a b : ℚ) : Except String ℚ :=
  if b = 0 then .error "float division by zero" else .ok (a / b)

/-- Python `range(n)` as used by the epoch loop: it yields
`0, 1, ..., n-1` and is empty for `n ≤ 0`. -/
def pyRange (n : ℤ) : List ℤ :=
  (List.range n.toNat).map Int.ofNat

/-- The training-phase batch loop of one epoch (`for data, target in
train_loader:`): threads the model through `optimizer.step`, accumulates the
loss sum, correct count and example count, skips a batch (with a warning)
when the forward pass or the loss is `None`, and propagates any exception.
Returns the lines printed so far together with the outcome. -/
def runTB (F : Framework M D O) (m : M) (ls : ℚ) (c t : ℕ) :
    List D → List Line × Except String (Totals M)
  | [] => ([], .ok ⟨m, ls, c, t⟩)
  | b :: bs =>
    match F.forward m b with
    | .error e => ([], .error e)
    | .ok none =>
      let r := runTB F m ls c t bs
      (.warnOutputNone :: r.1, r.2)
    | .ok (some out) =>
      match F.criterion out b with
      | .error e => ([], .error e)
      | .ok none =>
        let r := runTB F m ls c t bs
        (.warnLossNone :: r.1, r.2)
      | .ok (some loss) =>
        match F.step m b with
        | .error e => ([], .error e)
        | .ok m' =>
          runTB F m' (ls + loss) (c + F.correct out b) (t + F.size b) bs

/-- The evaluation-phase batch loop of one epoch (`with torch.no_grad(): for
data, target in test_loader:`): same accumulation and skip policy as the
training loop, but no `optimizer.step` — the model variable is threaded
unchanged through every batch. -/
def runEB (F : Framework M D O) (m : M) (ls : ℚ) (c t : ℕ) :
    List D → List Line × Except String (Totals M)
  | [] => ([], .ok ⟨m, ls, c, t⟩)
  | b :: bs =>
    match F.forward m b with
    | .error e => ([], .error e)
    | .ok none =>
      let r := runEB F m ls c t bs
      (.warnOutputNoneEval :: r.1, r.2)
    | .ok (some out) =>
      match F.criterion out b with
      | .error e => ([], .error e)
      | .ok none =>
        let r := runEB F m ls c t bs
        (.warnLossNoneEval :: r.1, r.2)
      | .ok (some loss) =>
        runEB F m (ls + loss) (c + F.correct out b) (t + F.size b) bs

/-- One iteration of the epoch loop: training phase, `train_loss /=
len(train_loader.dataset)`, `train_acc = 100. * train_correct / train_total`,
the two training appends, evaluation phase, the two evaluation divisions and
appends, and the progress line.  Any exception (including `ZeroDivisionError`
from a division) aborts the epoch, keeping the lines printed before it. -/
def runEpoch (F : Framework M D O) (tl el : Loader D) (epochs : ℤ)
    (m : M) (h : History) (epoch : ℤ) :
    List Line × Except String (M × History) :=
  let tb := runTB F m 0 0 0 tl.batches
  match tb.2 with
  | .error e => (tb.1, .error e)
  | .ok st =>
    match pythonDiv st.lossSum (tl.datasetSize : ℚ) with
    | .error e => (tb.1, .error e)
    | .ok trainLoss =>
      match pythonDiv (100 * (st.correct : ℚ)) (st.total : ℚ) with
      | .error e => (tb.1, .error e)
      | .ok trainAcc =>
        let h1 : History := { h with
          train_loss := h.train_loss ++ [trainLoss],
          train_acc := h.train_acc ++ [trainAcc] }
        let eb := runEB F st.model 0 0 0 el.batches
        match eb.2 with
        | .error e => (tb.1 ++ eb.1, .error e)
        | .ok se =>
          match pythonDiv se.lossSum (el.datasetSize : ℚ) with
          | .error e => (tb.1 ++ eb.1, .error e)
          | .ok testLoss =>
            match pythonDiv (100 * (se.correct : ℚ)) (se.total : ℚ) with
            | .error e => (tb.1 ++ eb.1, .error e)
            | .ok testAcc =>
              let h2 : History := { h1 with
                test_loss := h1.test_loss ++ [testLoss],
                test_acc := h1.test_acc ++ [testAcc] }
              (tb.1 ++ eb.1 ++
                  [.progress (epoch + 1) epochs trainLoss trainAcc testLoss testAcc],
                .ok (se.model, h2))

/-- The epoch loop `for epoch in range(epochs):` inside the `try` block:
runs the epochs in order, threading the model and the history; the first
exception aborts the whole loop, keeping the lines printed before it. -/
def runEpochs (F : Framework M D O) (tl el : Loader D) (epochs : ℤ) :
    M → History → List ℤ → List Line × Except String History
  | _, h, [] => ([], .ok h)
  | m, h, e :: es =>
    let r1 := runEpoch F tl el epochs m h e
    match r1.2 with
    | .error err => (r1.1, .error err)
    | .ok mh =>
      let r2 := runEpochs F tl el epochs mh.1 mh.2 es
      (r1.1 ++ r2.1, r2.2)

/-- The function `train(model, train_loader, test_loader, epochs)`: runs the
epoch loop under the `try`; on success returns the history, on any exception
prints the single line `An error occurred: {e}` and returns `None`.  The
result is the returned value (`some history` or `none`) paired with every
line printed, in order. -/
def train (F : Framework M D O) (model : M) (tl el : Loader D)
    (epochs : ℤ) : Option History × List Line :=
  let r := runEpochs F tl el epochs model History.empty (pyRange epochs)
  match r.2 with
  | .ok h => (some h, r.1)
  | .error e => (none, r.1 ++ [.errorLine e])

/-- A trivial concrete framework instance: every batch well-formed, batch
loss `1`, one correct prediction per one-example batch. -/
def okFW : Framework Unit Unit Unit where
  forward := fun _ _ => .ok (some ())
  criterion := fun _ _ => .ok (some 1)
  step := fun _ _ => .ok ()
  correct := fun _ _ => 1
  size := fun _ => 1

/-- A one-batch loader over a one-example dataset. -/
def oneLoader : Loader Unit := ⟨[()], 1⟩

/-- A concrete framework whose training state counts optimizer steps and
whose forward pass raises `boom` once two steps have been taken — with
`oneLoader` that happens in the evaluation phase of the second epoch, after
the first epoch completed successfully. -/
def boomFW : Framework ℕ Unit Unit where
  forward := fun m _ => if m ≤ 1 then .ok (some ()) else .error "boom"
  criterion := fun _ _ => .ok (some 1)
  step := fun m _ => .ok (m + 1)
  correct := fun _ _ => 1
  size := fun _ => 1

/-- A concrete framework whose forward pass always returns `None`, making
every batch anomalous. -/
def noneFW : Framework Unit Unit Unit where
  forward := fun _ _ => .ok none
  criterion := fun _ _ => .ok (some 1)
  step := fun _ _ => .ok ()
  correct := fun _ _ => 1
  size := fun _ => 1

/-! Unfolding equations for the two batch loops and the epoch loop, one per
control-flow branch of the source. -/

variable {M D O : Type}

theorem runTB_nil (F : Framework M D O) (m : M) (ls : ℚ) (c t : ℕ) :
    runTB F m ls c t [] = ([], .ok ⟨m, ls, c, t⟩) := rfl

theorem runTB_fErr {F : Framework M D O} {m : M} {b : D} {e : String}
    (hf : F.forward m b = .error e) (ls : ℚ) (c t : ℕ) (bs : List D) :
    runTB F m ls c t (b :: bs) = ([], .error e) := by
  simp [runTB, hf]

theorem runTB_fNone {F : Framework M D O} {m : M} {b : D}
    (hf : F.forward m b = .ok none) (ls : ℚ) (c t : ℕ) (bs : List D) :
    runTB F m ls c t (b :: bs) =
      (.warnOutputNone :: (runTB F m ls c t bs).1, (runTB F m ls c t bs).2) := by
  simp [runTB, hf]

theorem runTB_cErr {F : Framework M D O} {m : M} {b : D} {out : O} {e : String}
    (hf : F.forward m b = .ok (some out)) (hc : F.criterion out b = .error e)
    (ls : ℚ) (c t : ℕ) (bs : List D) :
    runTB F m ls c t (b :: bs) = ([], .error e) := by
  simp [runTB, hf, hc]

theorem runTB_cNone {F : Framework M D O} {m : M} {b : D} {out : O}
    (hf : F.forward m b = .ok (some out)) (hc : F.criterion out b = .ok none)
    (ls : ℚ) (c t : ℕ) (bs : List D) :
    runTB F m ls c t (b :: bs) =
      (.warnLossNone :: (runTB F m ls c t bs).1, (runTB F m ls c t bs).2) := by
  simp [runTB, hf, hc]

theorem runTB_sErr {F : Framework M D O} {m : M} {b : D} {out : O} {loss : ℚ}
    {e : String}
    (hf : F.forward m b = .ok (some out)) (hc : F.criterion out b = .ok (some loss))
    (hs : F.step m b = .error e) (ls : ℚ) (c t : ℕ) (bs : List D) :
    runTB F m ls c t (b :: bs) = ([], .error e) := by
  simp [runTB, hf, hc, hs]

theorem runTB_acc {F : Framework M D O} {m m' : M} {b : D} {out : O} {loss : ℚ}
    (hf : F.forward m b = .ok (some out)) (hc : F.criterion out b = .ok (some loss))
    (hs : F.step m b = .ok m') (ls : ℚ) (c t : ℕ) (bs : List D) :
    runTB F m ls c t (b :: bs) =
      runTB F m' (ls + loss) (c + F.correct out b) (t + F.size b) bs := by
  simp [runTB, hf, hc, hs]

theorem runEB_nil (F : Framework M D O) (m : M) (ls : ℚ) (c t : ℕ) :
    runEB F m ls c t [] = ([], .ok ⟨m, ls, c, t⟩) := rfl

theorem runEB_fErr {F : Framework M D O} {m : M} {b : D} {e : String}
    (hf : F.forward m b = .error e) (ls : ℚ) (c t : ℕ) (bs : List D) :
    runEB F m ls c t (b :: bs) = ([], .error e) := by
  simp [runEB, hf]

theorem runEB_fNone {F : Framework M D O} {m : M} {b : D}
    (hf : F.forward m b = .ok none) (ls : ℚ) (c t : ℕ) (bs : List D) :
    runEB F m ls c t (b :: bs) =
      (.warnOutputNoneEval :: (runEB F m ls c t bs).1, (runEB F m ls c t bs).2) := by
  simp [runEB, hf]

theorem runEB_cErr {F : Framework M D O} {m : M} {b : D} {out : O} {e : String}
    (hf : F.forward m b = .ok (some out)) (hc : F.criterion out b = .error e)
    (ls : ℚ) (c t : ℕ) (bs : List D) :
    runEB F m ls c t (b :: bs) = ([], .error e) := by
  simp [runEB, hf, hc]

theorem runEB_cNone {F : Framework M D O} {m : M} {b : D} {out : O}
    (hf : F.forward m b = .ok (some out)) (hc : F.criterion out b = .ok none)
    (ls : ℚ) (c t : ℕ) (bs : List D) :
    runEB F m ls c t (b :: bs) =
      (.warnLossNoneEval :: (runEB F m ls c t bs).1, (runEB F m ls c t bs).2) := by
  simp [runEB, hf, hc]

theorem runEB_acc {F : Framework M D O} {m : M} {b : D} {out : O} {loss : ℚ}
    (hf : F.forward m b = .ok (some out)) (hc : F.criterion out b = .ok (some loss))
    (ls : ℚ) (c t : ℕ) (bs : List D) :
    runEB F m ls c t (b :: bs) =
      runEB F m (ls + loss) (c + F.correct out b) (t + F.size b) bs := by
  simp [runEB, hf, hc]

theorem runEpochs_nil (F : Framework M D O) (tl el : Loader D) (N : ℤ)
    (m : M) (h : History) :
    runEpochs F tl el N m h [] = ([], .ok h) := rfl

theorem runEpochs_cons_err {F : Framework M D O} {tl el : Loader D} {N : ℤ}
    {m : M} {h : History} {e : ℤ} {err : String}
    (h1 : (runEpoch F tl el N m h e).2 = .error err) (es : List ℤ) :
    runEpochs F tl el N m h (e :: es) =
      ((runEpoch F tl el N m h e).1, .error err) := by
  simp [runEpochs, h1]

theorem runEpochs_cons_ok {F : Framework M D O} {tl el : Loader D} {N : ℤ}
    {m : M} {h : History} {e : ℤ} {m' : M} {h' : History}
    (h1 : (runEpoch F tl el N m h e).2 = .ok (m', h')) (es : List ℤ) :
    runEpochs F tl el N m h (e :: es) =
      ((runEpoch F tl el N m h e).1 ++ (runEpochs F tl el N m' h' es).1,
        (runEpochs F tl el N m' h' es).2) := by
  simp [runEpochs, h1]

/-! Basic facts about the Python division and range models. -/

theorem pythonDiv_ok {a b q : ℚ} (h : pythonDiv a b = .ok q) :
    b ≠ 0 ∧ q = a / b := by
  unfold pythonDiv at h
  split at h
  · exact absurd h (by simp)
  · exact ⟨by assumption, by injection h with h1; exact h1.symm⟩

theorem pythonDiv_ok_of_ne {b : ℚ} (a : ℚ) (hb : b ≠ 0) :
    pythonDiv a b = .ok (a / b) := by
  simp [pythonDiv, hb]

theorem pythonDiv_zero (a : ℚ) :
    pythonDiv a 0 = .error "float division by zero" := by
  simp [pythonDiv]

theorem pyRange_length (n : ℤ) : (pyRange n).length = n.toNat := by
  simp [pyRange]

theorem pyRange_nonpos {n : ℤ} (hn : n ≤ 0) : pyRange n = [] := by
  simp [pyRange, List.range_eq_nil, Int.toNat_eq_zero.mpr hn]

theorem pyRange_ne_nil {n : ℤ} (hn : 1 ≤ n) : pyRange n ≠ [] := by
  intro hc
  have := pyRange_length n
  rw [hc] at this
  simp at this
  omega

/-! Classification of the lines each layer of the loop can print: the batch
loops print only warnings, the epoch loop additionally prints progress lines;
the error line appears only in the top-level handler of `train`. -/

theorem runTB_lines (F : Framework M D O) :
    ∀ (bs : List D) (m : M) (ls : ℚ) (c t : ℕ),
      ∀ l ∈ (runTB F m ls c t bs).1, l.isWarning = true := by
  intro bs
  induction bs with
  | nil => intro m ls c t l hl; rw [runTB_nil] at hl; simp at hl
  | cons b bs ih =>
    intro m ls c t l hl
    cases hf : F.forward m b with
    | error e => rw [runTB_fErr hf] at hl; simp at hl
    | ok o =>
      cases o with
      | none =>
        rw [runTB_fNone hf] at hl
        simp only [List.mem_cons] at hl
        rcases hl with h1 | h1
        · subst h1; rfl
        · exact ih m ls c t l h1
      | some out =>
        cases hc : F.criterion out b with
        | error e => rw [runTB_cErr hf hc] at hl; simp at hl
        | ok lo =>
          cases lo with
          | none =>
            rw [runTB_cNone hf hc] at hl
            simp only [List.mem_cons] at hl
            rcases hl with h1 | h1
            · subst h1; rfl
            · exact ih m ls c t l h1
          | some loss =>
            cases hs : F.step m b with
            | error e => rw [runTB_sErr hf hc hs] at hl; simp at hl
            | ok m' =>
              rw [runTB_acc hf hc hs] at hl
              exact ih m' _ _ _ l hl

theorem runEB_lines (F : Framework M D O) :
    ∀ (bs : List D) (m : M) (ls : ℚ) (c t : ℕ),
      ∀ l ∈ (runEB F m ls c t bs).1, l.isWarning = true := by
  intro bs
  induction bs with
  | nil => intro m ls c t l hl; rw [runEB_nil] at hl; simp at hl
  | cons b bs ih =>
    intro m ls c t l hl
    cases hf : F.forward m b with
    | error e => rw [runEB_fErr hf] at hl; simp at hl
    | ok o =>
      cases o with
      | none =>
        rw [runEB_fNone hf] at hl
        simp only [List.mem_cons] at hl
        rcases hl with h1 | h1
        · subst h1; rfl
        · exact ih m ls c t l h1
      | some out =>
        cases hc : F.criterion out b with
        | error e => rw [runEB_cErr hf hc] at hl; simp at hl
        | ok lo =>
          cases lo with
          | none =>
            rw [runEB_cNone hf hc] at hl
            simp only [List.mem_cons] at hl
            rcases hl with h1 | h1
            · subst h1; rfl
            · exact ih m ls c t l h1
          | some loss =>
            rw [runEB_acc hf hc] at hl
            exact ih m _ _ _ l hl

theorem Line.isWarning_isError {l : Line} (h : l.isWarning = true) :
    l.isError = false := by
  cases l <;> simp_all [Line.isWarning, Line.isError]

theorem runEpoch_lines (F : Framework M D O) (tl el : Loader D) (N : ℤ)
    (m : M) (h : History) (e : ℤ) :
    ∀ l ∈ (runEpoch F tl el N m h e).1, l.isError = false := by
  intro l hl
  simp only [runEpoch] at hl
  split at hl
  · exact Line.isWarning_isError (runTB_lines F _ _ _ _ _ l hl)
  · split at hl
    · exact Line.isWarning_isError (runTB_lines F _ _ _ _ _ l hl)
    · split at hl
      · exact Line.isWarning_isError (runTB_lines F _ _ _ _ _ l hl)
      · split at hl
        · rw [List.mem_append] at hl
          rcases hl with h1 | h1
          · exact Line.isWarning_isError (runTB_lines F _ _ _ _ _ l h1)
          · exact Line.isWarning_isError (runEB_lines F _ _ _ _ _ l h1)
        · split at hl
          · rw [List.mem_append] at hl
            rcases hl with h1 | h1
            · exact Line.isWarning_isError (runTB_lines F _ _ _ _ _ l h1)
            · exact Line.isWarning_isError (runEB_lines F _ _ _ _ _ l h1)
          · split at hl
            · rw [List.mem_append] at hl
              rcases hl with h1 | h1
              · exact Line.isWarning_isError (runTB_lines F _ _ _ _ _ l h1)
              · exact Line.isWarning_isError (runEB_lines F _ _ _ _ _ l h1)
            · rw [List.mem_append, List.mem_append] at hl
              rcases hl with (h1 | h1) | h1
              · exact Line.isWarning_isError (runTB_lines F _ _ _ _ _ l h1)
              · exact Line.isWarning_isError (runEB_lines F _ _ _ _ _ l h1)
              · simp at h1; subst h1; rfl

theorem runEpochs_lines (F : Framework M D O) (tl el : Loader D) (N : ℤ) :
    ∀ (es : List ℤ) (m : M) (h : History),
      ∀ l ∈ (runEpochs F tl el N m h es).1, l.isError = false := by
  intro es
  induction es with
  | nil => intro m h l hl; rw [runEpochs_nil] at hl; simp at hl
  | cons e es ih =>
    intro m h l hl
    cases hr : (runEpoch F tl el N m h e).2 with
    | error err =>
      rw [runEpochs_cons_err hr] at hl
      exact runEpoch_lines F tl el N m h e l hl
    | ok mh =>
      obtain ⟨m1, h1⟩ := mh
      rw [runEpochs_cons_ok hr] at hl
      rw [List.mem_append] at hl
      rcases hl with h2 | h2
      · exact runEpoch_lines F tl el N m h e l h2
      · exact ih m1 h1 l h2

/-- The evaluation batch loop never changes the model variable: there is no
`optimizer.step` in the evaluation phase. -/
theorem runEB_ok_model (F : Framework M D O) :
    ∀ (bs : List D) (m : M) (ls : ℚ) (c t : ℕ) (st : Totals M),
      (runEB F m ls c t bs).2 = .ok st → st.model = m := by
  intro bs
  induction bs with
  | nil =>
    intro m ls c t st hok
    rw [runEB_nil] at hok
    injection hok with h1
    rw [← h1]
  | cons b bs ih =>
    intro m ls c t st hok
    cases hf : F.forward m b with
    | error e => rw [runEB_fErr hf] at hok; simp at hok
    | ok o =>
      cases o with
      | none =>
        rw [runEB_fNone hf] at hok
        exact ih m ls c t st hok
      | some out =>
        cases hc : F.criterion out b with
        | error e => rw [runEB_cErr hf hc] at hok; simp at hok
        | ok lo =>
          cases lo with
          | none =>
            rw [runEB_cNone hf hc] at hok
            exact ih m ls c t st hok
          | some loss =>
            rw [runEB_acc hf hc] at hok
            exact ih m _ _ _ st hok

/-- Characterization of a successful epoch: both batch loops returned totals,
all four divisions had nonzero denominators, the returned model is the one
threaded out of the evaluation loop, and the new history is the old one with
exactly the four computed metrics appended. -/
theorem runEpoch_ok_elim {F : Framework M D O} {tl el : Loader D} {N : ℤ}
    {m : M} {h : History} {e : ℤ} {m' : M} {h' : History}
    (hok : (runEpoch F tl el N m h e).2 = .ok (m', h')) :
    ∃ st se, (runTB F m 0 0 0 tl.batches).2 = .ok st ∧
      (runEB F st.model 0 0 0 el.batches).2 = .ok se ∧
      (tl.datasetSize : ℚ) ≠ 0 ∧ (st.total : ℚ) ≠ 0 ∧
      (el.datasetSize : ℚ) ≠ 0 ∧ (se.total : ℚ) ≠ 0 ∧
      m' = se.model ∧
      h' = { h with
        train_loss := h.train_loss ++ [st.lossSum / (tl.datasetSize : ℚ)],
        train_acc := h.train_acc ++ [100 * (st.correct : ℚ) / (st.total : ℚ)],
        test_loss := h.test_loss ++ [se.lossSum / (el.datasetSize : ℚ)],
        test_acc := h.test_acc ++ [100 * (se.correct : ℚ) / (se.total : ℚ)] } := by
  simp only [runEpoch] at hok
  split at hok
  · simp at hok
  · rename_i st hst
    split at hok
    · simp at hok
    · rename_i trainLoss hd1
      split at hok
      · simp at hok
      · rename_i trainAcc hd2
        split at hok
        · simp at hok
        · rename_i se hse
          split at hok
          · simp at hok
          · rename_i testLoss hd3
            split at hok
            · simp at hok
            · rename_i testAcc hd4
              simp only [Prod.mk.injEq, Except.ok.injEq] at hok
              obtain ⟨hd1a, hd1b⟩ := pythonDiv_ok hd1
              obtain ⟨hd2a, hd2b⟩ := pythonDiv_ok hd2
              obtain ⟨hd3a, hd3b⟩ := pythonDiv_ok hd3
              obtain ⟨hd4a, hd4b⟩ := pythonDiv_ok hd4
              refine ⟨st, se, hst, hse, hd1a, hd2a, hd3a, hd4a, hok.1.symm, ?_⟩
              rw [← hok.2]
              simp [hd1b, hd2b, hd3b, hd4b]

/-- A successful run of the epoch loop grows each of the four per-epoch
metric sequences by exactly one entry per epoch and never touches the
`val_acc` and `val_loss` sequences. -/
theorem runEpochs_ok_shape {F : Framework M D O} {tl el : Loader D} {N : ℤ} :
    ∀ (es : List ℤ) (m : M) (h h' : History),
      (runEpochs F tl el N m h es).2 = .ok h' →
      h'.train_loss.length = h.train_loss.length + es.length ∧
      h'.train_acc.length = h.train_acc.length + es.length ∧
      h'.test_loss.length = h.test_loss.length + es.length ∧
      h'.test_acc.length = h.test_acc.length + es.length ∧
      h'.val_acc = h.val_acc ∧ h'.val_loss = h.val_loss := by
  intro es
  induction es with
  | nil =>
    intro m h h' hok
    rw [runEpochs_nil] at hok
    injection hok with h1
    subst h1
    simp
  | cons e es ih =>
    intro m h h' hok
    cases hr : (runEpoch F tl el N m h e).2 with
    | error err => rw [runEpochs_cons_err hr] at hok; simp at hok
    | ok mh =>
      obtain ⟨m1, h1⟩ := mh
      rw [runEpochs_cons_ok hr] at hok
      obtain ⟨st, se, -, -, -, -, -, -, -, hshape⟩ := runEpoch_ok_elim hr
      obtain ⟨l1, l2, l3, l4, v1, v2⟩ := ih m1 h1 h' hok
      subst hshape
      simp only [List.length_append, List.length_cons, List.length_nil] at *
      refine ⟨by omega, by omega, by omega, by omega, v1, v2⟩

/-- A run of `train` that returns a history is exactly a successful run of
the epoch loop. -/
theorem train_ok_elim {F : Framework M D O} {m : M} {tl el : Loader D}
    {n : ℤ} {h : History} (hs : (train F m tl el n).1 = some h) :
    (runEpochs F tl el n m History.empty (pyRange n)).2 = .ok h := by
  simp only [train] at hs
  split at hs
  · rename_i h2 hr
    injection hs with h1
    subst h1
    exact hr
  · simp at hs

/-- When the forward pass always returns `None`, the training batch loop
skips every batch: it prints one warning per batch and leaves the running
totals untouched. -/
theorem runTB_allNone {F : Framework M D O}
    (hf : ∀ (m : M) (b : D), F.forward m b = .ok none) :
    ∀ (bs : List D) (m : M) (ls : ℚ) (c t : ℕ),
      runTB F m ls c t bs = (bs.map fun _ => Line.warnOutputNone, .ok ⟨m, ls, c, t⟩) := by
  intro bs
  induction bs with
  | nil => intro m ls c t; rfl
  | cons b bs ih =>
    intro m ls c t
    rw [runTB_fNone (hf m b), ih m ls c t]
    simp

/-- When the forward pass always returns `None`, every epoch fails with the
`ZeroDivisionError` of `100. * train_correct / train_total`: the epoch's
totals are all zero (if the dataset size is zero, already the loss division
raises the same error). -/
theorem runEpoch_allNone {F : Framework M D O} (tl el : Loader D) (N : ℤ)
    (hf : ∀ (m : M) (b : D), F.forward m b = .ok none)
    (m : M) (h : History) (e : ℤ) :
    (runEpoch F tl el N m h e).2 = .error "float division by zero" := by
  by_cases hds : (tl.datasetSize : ℚ) = 0
  · simp [runEpoch, runTB_allNone hf, hds, pythonDiv_zero]
  · simp [runEpoch, runTB_allNone hf, pythonDiv_ok_of_ne _ hds, pythonDiv_zero]

/-- A run of `train` over an epoch loop that raises returns `None` and
appends the single error line of the `except` handler to the lines printed
before the failure. -/
theorem train_err_elim {F : Framework M D O} {m : M} {tl el : Loader D}
    {n : ℤ} {err : String}
    (hr : (runEpochs F tl el n m History.empty (pyRange n)).2 = .error err) :
    train F m tl el n =
      (none, (runEpochs F tl el n m History.empty (pyRange n)).1 ++
        [Line.errorLine err]) := by
  simp only [train, hr]

theorem forall_mem_append_singleton {P : ℚ → Prop} {xs : List ℚ} {v : ℚ}
    (h1 : ∀ x ∈ xs, P x) (h2 : P v) : ∀ x ∈ xs ++ [v], P x := by
  intro x hx
  rw [List.mem_append] at hx
  rcases hx with hx | hx
  · exact h1 x hx
  · simp at hx; subst hx; exact h2

theorem acc_value_bounds {c t : ℕ} (hct : c ≤ t) (ht : (t : ℚ) ≠ 0) :
    0 ≤ 100 * (c : ℚ) / (t : ℚ) ∧ 100 * (c : ℚ) / (t : ℚ) ≤ 100 := by
  have htpos : (0 : ℚ) < (t : ℚ) := lt_of_le_of_ne (Nat.cast_nonneg _) (Ne.symm ht)
  constructor
  · exact div_nonneg (mul_nonneg (by norm_num) (Nat.cast_nonneg _)) (Nat.cast_nonneg _)
  · rw [div_le_iff₀ htpos]
    have hcq : (c : ℚ) ≤ (t : ℚ) := Nat.cast_le.mpr hct
    linarith

/-- The training batch loop keeps the loss sum nonnegative and the correct
count below the example count, provided each batch loss is nonnegative and
each batch's correct count is at most its size. -/
theorem runTB_bounds {F : Framework M D O}
    (hcs : ∀ (o : O) (b : D), F.correct o b ≤ F.size b)
    (hln : ∀ (o : O) (b : D) (l : ℚ), F.criterion o b = .ok (some l) → 0 ≤ l) :
    ∀ (bs : List D) (m : M) (ls : ℚ) (c t : ℕ), 0 ≤ ls → c ≤ t →
      ∀ st, (runTB F m ls c t bs).2 = .ok st →
        0 ≤ st.lossSum ∧ st.correct ≤ st.total := by
  intro bs
  induction bs with
  | nil =>
    intro m ls c t h1 h2 st hok
    rw [runTB_nil] at hok
    injection hok with h3
    rw [← h3]
    exact ⟨h1, h2⟩
  | cons b bs ih =>
    intro m ls c t h1 h2 st hok
    cases hf : F.forward m b with
    | error e => rw [runTB_fErr hf] at hok; simp at hok
    | ok o =>
      cases o with
      | none =>
        rw [runTB_fNone hf] at hok
        exact ih m ls c t h1 h2 st hok
      | some out =>
        cases hc : F.criterion out b with
        | error e => rw [runTB_cErr hf hc] at hok; simp at hok
        | ok lo =>
          cases lo with
          | none =>
            rw [runTB_cNone hf hc] at hok
            exact ih m ls c t h1 h2 st hok
          | some loss =>
            cases hs : F.step m b with
            | error e => rw [runTB_sErr hf hc hs] at hok; simp at hok
            | ok m' =>
              rw [runTB_acc hf hc hs] at hok
              exact ih m' _ _ _ (add_nonneg h1 (hln out b loss hc))
                (Nat.add_le_add h2 (hcs out b)) st hok

/-- Same invariant for the evaluation batch loop. -/
theorem runEB_bounds {F : Framework M D O}
    (hcs : ∀ (o : O) (b : D), F.correct o b ≤ F.size b)
    (hln : ∀ (o : O) (b : D) (l : ℚ), F.criterion o b = .ok (some l) → 0 ≤ l) :
    ∀ (bs : List D) (m : M) (ls : ℚ) (c t : ℕ), 0 ≤ ls → c ≤ t →
      ∀ st, (runEB F m ls c t bs).2 = .ok st →
        0 ≤ st.lossSum ∧ st.correct ≤ st.total := by
  intro bs
  induction bs with
  | nil =>
    intro m ls c t h1 h2 st hok
    rw [runEB_nil] at hok
    injection hok with h3
    rw [← h3]
    exact ⟨h1, h2⟩
  | cons b bs ih =>
    intro m ls c t h1 h2 st hok
    cases hf : F.forward m b with
    | error e => rw [runEB_fErr hf] at hok; simp at hok
    | ok o =>
      cases o with
      | none =>
        rw [runEB_fNone hf] at hok
        exact ih m ls c t h1 h2 st hok
      | some out =>
        cases hc : F.criterion out b with
        | error e => rw [runEB_cErr hf hc] at hok; simp at hok
        | ok lo =>
          cases lo with
          | none =>
            rw [runEB_cNone hf hc] at hok
            exact ih m ls c t h1 h2 st hok
          | some loss =>
            rw [runEB_acc hf hc] at hok
            exact ih m _ _ _ (add_nonneg h1 (hln out b loss hc))
              (Nat.add_le_add h2 (hcs out b)) st hok

/-- The epoch loop preserves the metric bounds: every appended loss is
nonnegative and every appended accuracy lies in `[0, 100]`. -/
theorem runEpochs_bounds {F : Framework M D O} {tl el : Loader D} {N : ℤ}
    (hcs : ∀ (o : O) (b : D), F.correct o b ≤ F.size b)
    (hln : ∀ (o : O) (b : D) (l : ℚ), F.criterion o b = .ok (some l) → 0 ≤ l) :
    ∀ (es : List ℤ) (m : M) (h h' : History),
      (runEpochs F tl el N m h es).2 = .ok h' →
      (∀ x ∈ h.train_loss, 0 ≤ x) → (∀ x ∈ h.train_acc, 0 ≤ x ∧ x ≤ 100) →
      (∀ x ∈ h.test_loss, 0 ≤ x) → (∀ x ∈ h.test_acc, 0 ≤ x ∧ x ≤ 100) →
      (∀ x ∈ h'.train_loss, 0 ≤ x) ∧ (∀ x ∈ h'.train_acc, 0 ≤ x ∧ x ≤ 100) ∧
      (∀ x ∈ h'.test_loss, 0 ≤ x) ∧ (∀ x ∈ h'.test_acc, 0 ≤ x ∧ x ≤ 100) := by
  intro es
  induction es with
  | nil =>
    intro m h h' hok g1 g2 g3 g4
    rw [runEpochs_nil] at hok
    injection hok with h1
    subst h1
    exact ⟨g1, g2, g3, g4⟩
  | cons e es ih =>
    intro m h h' hok g1 g2 g3 g4
    cases hr : (runEpoch F tl el N m h e).2 with
    | error err => rw [runEpochs_cons_err hr] at hok; simp at hok
    | ok mh =>
      obtain ⟨m1, h1⟩ := mh
      rw [runEpochs_cons_ok hr] at hok
      obtain ⟨st, se, hst, hse, hdt, htt, hde, hte, -, hshape⟩ := runEpoch_ok_elim hr
      obtain ⟨hls, hct⟩ :=
        runTB_bounds hcs hln tl.batches m 0 0 0 (le_refl 0) (le_refl 0) st hst
      obtain ⟨hls', hct'⟩ :=
        runEB_bounds hcs hln el.batches st.model 0 0 0 (le_refl 0) (le_refl 0) se hse
      refine ih m1 h1 h' hok ?_ ?_ ?_ ?_
      · rw [hshape]
        exact forall_mem_append_singleton g1
          (div_nonneg hls (Nat.cast_nonneg _))
      · rw [hshape]
        exact forall_mem_append_singleton g2 (acc_value_bounds hct htt)
      · rw [hshape]
        exact forall_mem_append_singleton g3
          (div_nonneg hls' (Nat.cast_nonneg _))
      · rw [hshape]
        exact forall_mem_append_singleton g4 (acc_value_bounds hct' hte)

/-! The claims. -/

/-- C1: when an unrecoverable failure (any exception other than the handled
None-result anomalies) is raised anywhere in the epoch loop — during a
training or evaluation phase of any epoch — `train` returns the no-result
signal `None` and no partial History, even if prior epochs completed, and
exactly one error line is printed. -/
theorem C1_unrecoverable_failure_aborts {F : Framework M D O} {m : M}
    {tl el : Loader D} {n : ℤ} {err : String}
    (hfail : (runEpochs F tl el n m History.empty (pyRange n)).2 = .error err) :
    train F m tl el n =
      (none, (runEpochs F tl el n m History.empty (pyRange n)).1 ++
        [Line.errorLine err]) ∧
    (train F m tl el n).2.countP Line.isError = 1 := by
  have h1 := train_err_elim hfail
  refine ⟨h1, ?_⟩
  rw [h1]
  simp only [List.countP_append]
  have h2 : (runEpochs F tl el n m History.empty (pyRange n)).1.countP
      Line.isError = 0 := by
    rw [List.countP_eq_zero]
    intro l hl
    simp [runEpochs_lines F tl el n (pyRange n) m History.empty l hl]
  rw [h2]
  rfl

/-- C2: a batch whose forward pass returns `None`, or whose loss computation
returns `None`, is skipped entirely in either phase: a warning is printed,
nothing is added to the running loss sum, correct count or example count, and
the loop continues with the remaining batches instead of aborting. -/
theorem C2_anomalous_batch_skipped {F : Framework M D O} {m : M} {b : D}
    (ls : ℚ) (c t : ℕ) (bs : List D)
    (hanom : F.forward m b = .ok none ∨
      ∃ out, F.forward m b = .ok (some out) ∧ F.criterion out b = .ok none) :
    (∃ w, w.isWarning = true ∧
      runTB F m ls c t (b :: bs) =
        (w :: (runTB F m ls c t bs).1, (runTB F m ls c t bs).2)) ∧
    (∃ w, w.isWarning = true ∧
      runEB F m ls c t (b :: bs) =
        (w :: (runEB F m ls c t bs).1, (runEB F m ls c t bs).2)) := by
  rcases hanom with hf | ⟨out, hf, hc⟩
  · exact ⟨⟨.warnOutputNone, rfl, runTB_fNone hf ls c t bs⟩,
      ⟨.warnOutputNoneEval, rfl, runEB_fNone hf ls c t bs⟩⟩
  · exact ⟨⟨.warnLossNone, rfl, runTB_cNone hf hc ls c t bs⟩,
      ⟨.warnLossNoneEval, rfl, runEB_cNone hf hc ls c t bs⟩⟩

/-- C3 counterexample: a successful one-epoch run returns a History in which
the `val_acc` sequence has length 0, not 1 — so the length of every sequence
in the returned History does not equal the number of completed epochs; only
the four per-epoch metric sequences do. -/
theorem C3_counterexample :
    (train okFW () oneLoader oneLoader 1).1 =
      some ⟨[1], [100], [1], [100], [], []⟩ ∧
    ¬ ((⟨[1], [100], [1], [100], [], []⟩ : History).val_acc.length
        = (1 : ℤ).toNat) := by
  constructor
  · norm_num [train, runEpochs, runEpoch, runTB, runEB, pythonDiv, pyRange,
      List.range_succ, okFW, oneLoader, History.empty]
  · decide

/-- C3 (amended): for every epoch count `n`, a successful run of `train`
returns a History in which each of the four per-epoch metric sequences
(training loss, training accuracy, evaluation loss, evaluation accuracy) has
exactly `n.toNat` entries — one appended per completed epoch, never a partial
value (the two never-appended sequences `val_acc`/`val_loss` stay empty,
see C9). -/
theorem C3_four_metric_lengths {F : Framework M D O} {m : M}
    {tl el : Loader D} {n : ℤ} {h : History}
    (hs : (train F m tl el n).1 = some h) :
    h.train_loss.length = n.toNat ∧ h.train_acc.length = n.toNat ∧
    h.test_loss.length = n.toNat ∧ h.test_acc.length = n.toNat := by
  have hok := train_ok_elim hs
  obtain ⟨l1, l2, l3, l4, -, -⟩ :=
    runEpochs_ok_shape (pyRange n) m History.empty h hok
  rw [pyRange_length] at l1 l2 l3 l4
  simp only [History.empty, List.length_nil, Nat.zero_add] at l1 l2 l3 l4
  exact ⟨l1, l2, l3, l4⟩

/-- C4: in every completed epoch, the recorded training loss equals the
running loss sum divided by the number of training examples (the training
dataset size), the recorded training accuracy equals correct divided by total
times 100, and the evaluation metrics are derived identically over the
evaluation partition. -/
theorem C4_epoch_metric_formulas {F : Framework M D O} {tl el : Loader D}
    {N : ℤ} {m : M} {h : History} {e : ℤ} {m' : M} {h' : History}
    (hok : (runEpoch F tl el N m h e).2 = .ok (m', h')) :
    ∃ st se, (runTB F m 0 0 0 tl.batches).2 = .ok st ∧
      (runEB F st.model 0 0 0 el.batches).2 = .ok se ∧
      h'.train_loss = h.train_loss ++ [st.lossSum / (tl.datasetSize : ℚ)] ∧
      h'.train_acc = h.train_acc ++ [(st.correct : ℚ) / (st.total : ℚ) * 100] ∧
      h'.test_loss = h.test_loss ++ [se.lossSum / (el.datasetSize : ℚ)] ∧
      h'.test_acc = h.test_acc ++ [(se.correct : ℚ) / (se.total : ℚ) * 100] := by
  obtain ⟨st, se, hst, hse, -, -, -, -, -, hshape⟩ := runEpoch_ok_elim hok
  have hcomm : ∀ a b : ℚ, 100 * a / b = a / b * 100 := fun a b => by ring
  refine ⟨st, se, hst, hse, ?_, ?_, ?_, ?_⟩ <;> rw [hshape] <;>
    simp [hcomm]

/-- C5: when every batch of an epoch is skipped as anomalous, the epoch's
derived accuracy hits a zero denominator; the resulting `ZeroDivisionError`
does not escape `train` uncaught — the run-level handler catches it, prints
its single error line and returns the no-result signal. -/
theorem C5_all_skipped_division_caught {F : Framework M D O} {m : M}
    {tl el : Loader D} {n : ℤ}
    (hf : ∀ (m : M) (b : D), F.forward m b = .ok none) (hn : 1 ≤ n) :
    (train F m tl el n).1 = none ∧
    Line.errorLine "float division by zero" ∈ (train F m tl el n).2 ∧
    (train F m tl el n).2.countP Line.isError = 1 := by
  obtain ⟨e, es, hsplit⟩ := List.exists_cons_of_ne_nil (pyRange_ne_nil hn)
  have herr : (runEpochs F tl el n m History.empty (pyRange n)).2 =
      .error "float division by zero" := by
    rw [hsplit,
      runEpochs_cons_err (runEpoch_allNone tl el n hf m History.empty e) es]
  have htr := train_err_elim herr
  refine ⟨by rw [htr], by rw [htr]; simp, ?_⟩
  rw [htr]
  simp only [List.countP_append]
  have h2 : (runEpochs F tl el n m History.empty (pyRange n)).1.countP
      Line.isError = 0 := by
    rw [List.countP_eq_zero]
    intro l hl
    simp [runEpochs_lines F tl el n (pyRange n) m History.empty l hl]
  rw [h2]
  rfl

/-- C6: the evaluation pass never mutates the model: the model coming out of
the evaluation batch loop is the model that went in (there is no optimizer
update under `torch.no_grad()`), so re-running the same evaluation pass on
the resulting model over the same data yields the identical printed lines and
the identical loss/accuracy totals. -/
theorem C6_eval_pass_pure {F : Framework M D O} {bs : List D} {m : M}
    {ls : ℚ} {c t : ℕ} {w : List Line} {st : Totals M}
    (h : runEB F m ls c t bs = (w, .ok st)) :
    st.model = m ∧ runEB F st.model ls c t bs = (w, .ok st) := by
  have hm : st.model = m := runEB_ok_model F bs m ls c t st (by rw [h])
  exact ⟨hm, by rw [hm, h]⟩

/-- C7: in every History a successful run returns, every accuracy value lies
in `[0, 100]` and every loss value is nonnegative — given the two facts the
external framework guarantees: a batch's correct-prediction count never
exceeds its size, and the criterion's loss values are nonnegative. -/
theorem C7_metric_bounds {F : Framework M D O} {m : M} {tl el : Loader D}
    {n : ℤ} {h : History}
    (hcs : ∀ (o : O) (b : D), F.correct o b ≤ F.size b)
    (hln : ∀ (o : O) (b : D) (l : ℚ), F.criterion o b = .ok (some l) → 0 ≤ l)
    (hs : (train F m tl el n).1 = some h) :
    (∀ x ∈ h.train_loss, 0 ≤ x) ∧ (∀ x ∈ h.train_acc, 0 ≤ x ∧ x ≤ 100) ∧
    (∀ x ∈ h.test_loss, 0 ≤ x) ∧ (∀ x ∈ h.test_acc, 0 ≤ x ∧ x ≤ 100) := by
  have hok := train_ok_elim hs
  exact runEpochs_bounds hcs hln (pyRange n) m History.empty h hok
    (by simp [History.empty]) (by simp [History.empty])
    (by simp [History.empty]) (by simp [History.empty])

/-- C8: `train` with `epochs = 0` returns a History whose sequences are all
empty (in particular the four per-epoch metric sequences) and prints no lines
at all, in particular no progress lines. -/
theorem C8_zero_epochs (F : Framework M D O) (m : M) (tl el : Loader D) :
    train F m tl el 0 = (some ⟨[], [], [], [], [], []⟩, []) ∧
    (train F m tl el 0).2.countP Line.isProgress = 0 :=
  ⟨rfl, rfl⟩

/-- C9: every History a successful run returns consists of exactly the six
metric sequences of the `history` dictionary (the six fields of `History`),
and the two sequences `val_acc` and `val_loss` are never appended to: they
are empty in every returned History, whatever the epoch count. -/
theorem C9_val_sequences_empty {F : Framework M D O} {m : M}
    {tl el : Loader D} {n : ℤ} {h : History}
    (hs : (train F m tl el n).1 = some h) :
    h.val_acc = [] ∧ h.val_loss = [] := by
  have hok := train_ok_elim hs
  obtain ⟨-, -, -, -, v1, v2⟩ :=
    runEpochs_ok_shape (pyRange n) m History.empty h hok
  exact ⟨v1.trans rfl, v2.trans rfl⟩

/-- C10: a negative epochs argument is not an error: `range(epochs)` is
empty, so `train` behaves exactly as for `epochs = 0`, returning an
all-empty History and printing no lines. -/
theorem C10_negative_epochs (F : Framework M D O) (m : M) (tl el : Loader D)
    {n : ℤ} (hn : n < 0) :
    train F m tl el n = train F m tl el 0 ∧
    train F m tl el n = (some ⟨[], [], [], [], [], []⟩, []) := by
  have hr : pyRange n = [] := pyRange_nonpos (le_of_lt hn)
  constructor <;> simp only [train, hr, runEpochs_nil] <;> rfl

/-! Concrete witnesses: each theorem with a hypothesis, applied at a concrete
framework instance. -/

/-- C1 witness: with `boomFW` the forward pass raises in the evaluation phase
of the second of five epochs (after epoch one completed); `train` returns
`None` with exactly one error line. -/
theorem C1_witness :
    train boomFW 0 oneLoader oneLoader 5 =
      (none, (runEpochs boomFW oneLoader oneLoader 5 0 History.empty
        (pyRange 5)).1 ++ [Line.errorLine "boom"]) ∧
    (train boomFW 0 oneLoader oneLoader 5).2.countP Line.isError = 1 :=
  C1_unrecoverable_failure_aborts (by
    norm_num [runEpochs, runEpoch, runTB, runEB, pythonDiv, pyRange,
      List.range_succ, boomFW, oneLoader, History.empty])

/-- C2 witness: with `noneFW` every forward pass returns `None`; the one
batch is skipped with a warning and untouched totals in both phases. -/
theorem C2_witness :
    (∃ w, w.isWarning = true ∧
      runTB noneFW () 0 0 0 [()] =
        (w :: (runTB noneFW () 0 0 0 []).1, (runTB noneFW () 0 0 0 []).2)) ∧
    (∃ w, w.isWarning = true ∧
      runEB noneFW () 0 0 0 [()] =
        (w :: (runEB noneFW () 0 0 0 []).1, (runEB noneFW () 0 0 0 []).2)) :=
  C2_anomalous_batch_skipped 0 0 0 [] (Or.inl rfl)

/-- C3 witness: the one-epoch run of `okFW` yields four metric sequences of
length one. -/
theorem C3_witness :
    (⟨[1], [100], [1], [100], [], []⟩ : History).train_loss.length
        = (1 : ℤ).toNat ∧
    (⟨[1], [100], [1], [100], [], []⟩ : History).train_acc.length
        = (1 : ℤ).toNat ∧
    (⟨[1], [100], [1], [100], [], []⟩ : History).test_loss.length
        = (1 : ℤ).toNat ∧
    (⟨[1], [100], [1], [100], [], []⟩ : History).test_acc.length
        = (1 : ℤ).toNat :=
  C3_four_metric_lengths (show (train okFW () oneLoader oneLoader 1).1 =
      some ⟨[1], [100], [1], [100], [], []⟩ by
    norm_num [train, runEpochs, runEpoch, runTB, runEB, pythonDiv, pyRange,
      List.range_succ, okFW, oneLoader, History.empty])

/-- C4 witness: in the one epoch run with `okFW`, the appended metrics are
the sum/size and correct/total × 100 formulas. -/
theorem C4_witness :
    ∃ st se,
      (runTB okFW () 0 0 0 oneLoader.batches).2 = .ok st ∧
      (runEB okFW st.model 0 0 0 oneLoader.batches).2 = .ok se ∧
      (⟨[1], [100], [1], [100], [], []⟩ : History).train_loss =
        History.empty.train_loss ++
          [st.lossSum / (oneLoader.datasetSize : ℚ)] ∧
      (⟨[1], [100], [1], [100], [], []⟩ : History).train_acc =
        History.empty.train_acc ++
          [(st.correct : ℚ) / (st.total : ℚ) * 100] ∧
      (⟨[1], [100], [1], [100], [], []⟩ : History).test_loss =
        History.empty.test_loss ++
          [se.lossSum / (oneLoader.datasetSize : ℚ)] ∧
      (⟨[1], [100], [1], [100], [], []⟩ : History).test_acc =
        History.empty.test_acc ++
          [(se.correct : ℚ) / (se.total : ℚ) * 100] :=
  C4_epoch_metric_formulas (show
      (runEpoch okFW oneLoader oneLoader 1 () History.empty 0).2 =
        .ok ((), ⟨[1], [100], [1], [100], [], []⟩) by
    norm_num [runEpoch, runTB, runEB, pythonDiv, okFW, oneLoader,
      History.empty])

/-- C5 witness: the one-epoch run of `noneFW` skips its batch, divides by a
zero total, and the caught failure yields `None` with one error line. -/
theorem C5_witness :
    (train noneFW () oneLoader oneLoader 1).1 = none ∧
    Line.errorLine "float division by zero" ∈
      (train noneFW () oneLoader oneLoader 1).2 ∧
    (train noneFW () oneLoader oneLoader 1).2.countP Line.isError = 1 :=
  C5_all_skipped_division_caught (fun _ _ => rfl) (by norm_num)

/-- C6 witness: one evaluation pass of `okFW` leaves the model `()` in place
and re-running it reproduces the same totals. -/
theorem C6_witness :
    (Totals.mk () 1 1 1).model = () ∧
    runEB okFW (Totals.mk () (1 : ℚ) 1 1).model 0 0 0 [()] =
      ([], .ok ⟨(), 1, 1, 1⟩) :=
  C6_eval_pass_pure (show runEB okFW () 0 0 0 [()] =
      ([], .ok ⟨(), 1, 1, 1⟩) by norm_num [runEB, okFW])

/-- C7 witness: the metrics of the one-epoch `okFW` run are within bounds. -/
theorem C7_witness :
    (∀ x ∈ (⟨[1], [100], [1], [100], [], []⟩ : History).train_loss, 0 ≤ x) ∧
    (∀ x ∈ (⟨[1], [100], [1], [100], [], []⟩ : History).train_acc,
      0 ≤ x ∧ x ≤ 100) ∧
    (∀ x ∈ (⟨[1], [100], [1], [100], [], []⟩ : History).test_loss, 0 ≤ x) ∧
    (∀ x ∈ (⟨[1], [100], [1], [100], [], []⟩ : History).test_acc,
      0 ≤ x ∧ x ≤ 100) :=
  C7_metric_bounds (fun _ _ => le_refl 1)
    (fun o b l hl => by
      injection hl with h1
      injection h1 with h2
      rw [← h2]
      norm_num)
    (show (train okFW () oneLoader oneLoader 1).1 =
        some ⟨[1], [100], [1], [100], [], []⟩ by
      norm_num [train, runEpochs, runEpoch, runTB, runEB, pythonDiv, pyRange,
        List.range_succ, okFW, oneLoader, History.empty])

/-- C9 witness: the one-epoch `okFW` run returns empty `val_acc` and
`val_loss` sequences. -/
theorem C9_witness :
    (⟨[1], [100], [1], [100], [], []⟩ : History).val_acc = [] ∧
    (⟨[1], [100], [1], [100], [], []⟩ : History).val_loss = [] :=
  C9_val_sequences_empty (show (train okFW () oneLoader oneLoader 1).1 =
      some ⟨[1], [100], [1], [100], [], []⟩ by
    norm_num [train, runEpochs, runEpoch, runTB, runEB, pythonDiv, pyRange,
      List.range_succ, okFW, oneLoader, History.empty])

/-- C10 witness: `epochs = -3` behaves exactly like `epochs = 0`. -/
theorem C10_witness :
    train okFW () oneLoader oneLoader (-3) = train okFW () oneLoader oneLoader 0 ∧
    train okFW () oneLoader oneLoader (-3) = (some ⟨[], [], [], [], [], []⟩, []) :=
  C10_negative_epochs okFW () oneLoader oneLoader (by norm_num)

end ConvNets
